import Mathlib

/-!
Verification of the task persistence and consistency layer of `taskfocus.py`
(class `TaskStore`, the module-level date/sort helpers, the search predicate
`_task_matches_query` and the bulk-import line parser `_parse_template_line`).

Python dicts that can lack keys are embedded as structures whose fields are
`Option`-valued: `none` models an absent key, and `Option.getD` models
`dict.get(key, default)`.  The Python file defines `append_session`,
`register_people` and `get_people` several times inside the class body; only
the last definition of each is in effect, and that is the one embedded here.
`date.today()` and `datetime.now()` are passed in as explicit parameters.
All string processing is done on `List Char` so that every definition reduces
inside the kernel; Python's Unicode-aware character classes are modelled by
their ASCII behaviour, which covers every value the program itself produces.
-/

namespace TaskFocus

/-! ### Character and string helpers -/

/-- Characters counted as whitespace (Python's `str.strip` / `str.split` /
regex `\s`, restricted to ASCII). -/
def isWs (c : Char) : Bool := c.isWhitespace

/-- Python regex `\w` (ASCII restriction): letters, digits, underscore. -/
def isWordChar (c : Char) : Bool := c.isAlphanum || c = '_'

/-- Lowercase a character list (Python `str.lower`, ASCII restriction). -/
def lowerChars (cs : List Char) : List Char := cs.map Char.toLower

/-- Python `str.strip()` on a character list. -/
def stripChars (cs : List Char) : List Char :=
  ((cs.dropWhile isWs).reverse.dropWhile isWs).reverse

/-- Python `str.rstrip()` on a character list. -/
def rstripChars (cs : List Char) : List Char :=
  (cs.reverse.dropWhile isWs).reverse

/-- Python `str.capitalize()` (ASCII restriction): first character uppercased,
the rest lowercased. -/
def capitalizeChars (cs : List Char) : List Char :=
  match cs with
  | [] => []
  | c :: rest => c.toUpper :: lowerChars rest

/-- Split a character list at every occurrence of a separator character,
keeping empty pieces (Python `str.split(sep)` for a one-character `sep`). -/
def splitOnChar (sep : Char) : List Char → List (List Char)
  | [] => [[]]
  | c :: rest =>
    let r := splitOnChar sep rest
    if c = sep then [] :: r
    else
      match r with
      | [] => [[c]]
      | g :: gs => (c :: g) :: gs

/-- Python `str.split()` with no argument: maximal runs of non-whitespace,
empty pieces discarded. -/
def splitWs : List Char → List (List Char)
  | [] => []
  | c :: rest =>
    if isWs c then splitWs rest
    else
      match splitWs rest with
      | [] => [[c]]
      | g :: gs =>
        match rest with
        | [] => [[c]]
        | d :: _ => if isWs d then [c] :: g :: gs else (c :: g) :: gs

/-- Join character lists with a single space (Python `" ".join(...)`). -/
def joinSpace : List (List Char) → List Char
  | [] => []
  | [x] => x
  | x :: y :: rest => x ++ ' ' :: joinSpace (y :: rest)

/-- Needle is a literal prefix of haystack. -/
def listStartsWith : List Char → List Char → Bool
  | [], _ => true
  | _ :: _, [] => false
  | a :: as_, b :: bs => a = b && listStartsWith as_ bs

/-- Python's substring test `needle in hay` on character lists (the empty
needle is in everything). -/
def containsSub (needle : List Char) : List Char → Bool
  | [] => listStartsWith needle []
  | c :: t => listStartsWith needle (c :: t) || containsSub needle t

/-- Value of a list of decimal digit characters. -/
def digitsToNat (cs : List Char) : Nat :=
  cs.foldl (fun n c => n * 10 + (c.toNat - 48)) 0

/-- All characters are ASCII decimal digits. -/
def allDigits (cs : List Char) : Bool := cs.all Char.isDigit

/-- Render a natural number as decimal digits. -/
def natDigits (n : Nat) : List Char :=
  (Nat.toDigits 10 n)

/-- Zero-pad a digit string on the left to a given width. -/
def padZero (width : Nat) (cs : List Char) : List Char :=
  List.replicate (width - cs.length) '0' ++ cs

/-! ### Calendar dates (`datetime.date`) -/

/-- A Python `datetime.date` value: the constructor validates the calendar,
so values built by the embedded parsers always satisfy `validDate`. -/
structure PyDate where
  year : Nat
  month : Nat
  day : Nat
deriving DecidableEq, Repr

/-- Gregorian leap-year rule used by `datetime`. -/
def isLeap (y : Nat) : Bool := y % 4 = 0 && (y % 100 ≠ 0 || y % 400 = 0)

/-- Number of days in a month (Gregorian, as in `datetime`). -/
def daysInMonth (y m : Nat) : Nat :=
  if m = 2 then (if isLeap y then 29 else 28)
  else if m = 4 ∨ m = 6 ∨ m = 9 ∨ m = 11 then 30
  else 31

/-- Validity check performed by the `datetime.date` constructor. -/
def validDate (y m d : Nat) : Bool :=
  1 ≤ y && y ≤ 9999 && 1 ≤ m && m ≤ 12 && 1 ≤ d && d ≤ daysInMonth y m

/-- Python `date` comparison: lexicographic on (year, month, day). -/
def dateLt (a b : PyDate) : Prop :=
  a.year < b.year ∨ (a.year = b.year ∧
    (a.month < b.month ∨ (a.month = b.month ∧ a.day < b.day)))

instance : DecidablePred fun p : PyDate × PyDate => dateLt p.1 p.2 := by
  intro p; unfold dateLt; infer_instance

instance dateLtDec (a b : PyDate) : Decidable (dateLt a b) := by
  unfold dateLt; infer_instance

/-- Python `date` weak comparison `<=`. -/
def dateLe (a b : PyDate) : Prop := dateLt a b ∨ a = b

instance dateLeDec (a b : PyDate) : Decidable (dateLe a b) := by
  unfold dateLe; infer_instance

/-- A month field accepted by `strptime`'s `%m` directive: one or two decimal
digits with value between 1 and 12 (CPython's `_strptime` regular expression
`1[0-2]|0[1-9]|[1-9]`, followed here by the literal separator, accepts exactly
these tokens). -/
def monthToken (cs : List Char) : Option Nat :=
  if allDigits cs && (cs.length = 1 || cs.length = 2) then
    let v := digitsToNat cs
    if 1 ≤ v && v ≤ 12 then some v else none
  else none

/-- A day field accepted by `strptime`'s `%d` directive: one or two decimal
digits with value between 1 and 31 (`3[01]|[12]\d|0[1-9]|[1-9]`). -/
def dayToken (cs : List Char) : Option Nat :=
  if allDigits cs && (cs.length = 1 || cs.length = 2) then
    let v := digitsToNat cs
    if 1 ≤ v && v ≤ 31 then some v else none
  else none

/-- A year field accepted by `strptime`'s `%Y` directive: exactly four decimal
digits (`\d\d\d\d` in CPython's `_strptime`). -/
def yearToken (cs : List Char) : Option Nat :=
  if allDigits cs && cs.length = 4 then some (digitsToNat cs) else none

/-- `datetime.strptime(s, "%Y-%m-%d").date()`: the pattern must consume the
whole string, and the `datetime` constructor then validates the calendar
(rejecting year 0 and out-of-range days). -/
def strptimeYmd (cs : List Char) : Option PyDate :=
  match splitOnChar '-' cs with
  | [ys, ms, ds] =>
    match yearToken ys, monthToken ms, dayToken ds with
    | some y, some m, some d => if validDate y m d then some ⟨y, m, d⟩ else none
    | _, _, _ => none
  | _ => none

/-- `datetime.strptime(s, "%d.%m.%Y").date()` (the alternative input format). -/
def strptimeDmy (cs : List Char) : Option PyDate :=
  match splitOnChar '.' cs with
  | [ds, ms, ys] =>
    match yearToken ys, monthToken ms, dayToken ds with
    | some y, some m, some d => if validDate y m d then some ⟨y, m, d⟩ else none
    | _, _, _ => none
  | _ => none

/-- Embedding of module-level `parse_date`: empty strings parse to `None`,
then `%Y-%m-%d` is tried, then `%d.%m.%Y`, and failure yields `None`. -/
def parse_date (s : String) : Option PyDate :=
  if s = "" then none
  else
    match strptimeYmd s.toList with
    | some d => some d
    | none => strptimeDmy s.toList

/-- `date.strftime('%Y-%m-%d')`: zero-padded ISO rendering (all dates the
program formats have four-digit years). -/
def formatDate (d : PyDate) : String :=
  ⟨padZero 4 (natDigits d.year) ++ '-' ::
    (padZero 2 (natDigits d.month) ++ '-' :: padZero 2 (natDigits d.day))⟩

/-! ### Timestamps (`datetime.datetime`) for `sort_key` -/

/-- A Python `datetime.datetime` value (microseconds are zero everywhere this
program constructs one, so they are omitted). -/
structure PyDateTime where
  year : Nat
  month : Nat
  day : Nat
  hour : Nat
  minute : Nat
  second : Nat
deriving DecidableEq, Repr

/-- Python `datetime` comparison: lexicographic on all six fields. -/
def dtLt (a b : PyDateTime) : Prop :=
  a.year < b.year ∨ (a.year = b.year ∧
    (a.month < b.month ∨ (a.month = b.month ∧
      (a.day < b.day ∨ (a.day = b.day ∧
        (a.hour < b.hour ∨ (a.hour = b.hour ∧
          (a.minute < b.minute ∨ (a.minute = b.minute ∧
            a.second < b.second)))))))))

instance dtLtDec (a b : PyDateTime) : Decidable (dtLt a b) := by
  unfold dtLt; infer_instance

/-- A strictly two-digit numeric field of an ISO timestamp. -/
def twoDigit (cs : List Char) : Option Nat :=
  match cs with
  | [a, b] => if a.isDigit && b.isDigit then some (digitsToNat [a, b]) else none
  | _ => none

/-- The time-of-day part of an ISO string: `HH`, `HH:MM` or `HH:MM:SS`. -/
def parseIsoTime (cs : List Char) : Option (Nat × Nat × Nat) :=
  match splitOnChar ':' cs with
  | [hs] => (twoDigit hs).map fun h => (h, 0, 0)
  | [hs, ms] =>
    match twoDigit hs, twoDigit ms with
    | some h, some m => some (h, m, 0)
    | _, _ => none
  | [hs, ms, ss] =>
    match twoDigit hs, twoDigit ms, twoDigit ss with
    | some h, some m, some s => some (h, m, s)
    | _, _, _ => none
  | _ => none

/-- Embedding of `datetime.fromisoformat`, restricted to the shapes this
program writes (`datetime.now().isoformat(timespec="seconds")`, i.e.
`YYYY-MM-DDTHH:MM:SS`, plus the date-only and shorter-time forms; the
separator may be `T` or a space).  The empty string fails, as in Python. -/
def fromisoformat (s : String) : Option PyDateTime :=
  let cs := s.toList
  match cs.take 10 with
  | [y1, y2, y3, y4, '-', m1, m2, '-', d1, d2] =>
    if [y1, y2, y3, y4, m1, m2, d1, d2].all Char.isDigit then
      let y := digitsToNat [y1, y2, y3, y4]
      let m := digitsToNat [m1, m2]
      let d := digitsToNat [d1, d2]
      if validDate y m d then
        match cs.drop 10 with
        | [] => some ⟨y, m, d, 0, 0, 0⟩
        | sep :: timeChars =>
          if sep = 'T' ∨ sep = ' ' then
            match parseIsoTime timeChars with
            | some (h, mi, sec) =>
              if h ≤ 23 && mi ≤ 59 && sec ≤ 59 then some ⟨y, m, d, h, mi, sec⟩
              else none
            | none => none
          else none
      else none
    else none
  | _ => none

/-! ### The sort key (`sort_key` and `PRIORITY_ORDER`) -/

/-- Module-level `TASK_TYPES`. -/
def TASK_TYPES : List String := ["Make", "Ask", "Arrange", "Control"]

/-- Module-level `PRIORITIES`. -/
def PRIORITIES : List String := ["High", "Medium", "Low"]

/-- Module-level `STATUSES`. -/
def STATUSES : List String := ["open", "done"]

/-- Module-level `PRIORITY_ORDER.get(p, 1)`. -/
def priorityRank (p : String) : Nat :=
  if p = "High" then 0 else if p = "Medium" then 1 else if p = "Low" then 2
  else 1

/-! ### The data model: sessions, tasks, the store aggregate -/

/-- A session dict.  `append_session` always creates all three keys, but a
record read back from the snapshot may lack any of them, hence `Option`. -/
structure Session where
  timestamp : Option String
  minutes : Option Int
  note : Option String
deriving DecidableEq, Repr

/-- A task dict.  Every field is `Option`-valued because a Python dict can
lack any key; `none` is an absent key.  `completed_at` is doubly optional:
the key can be absent, or present with value `None`.  The dict key `type` is
spelled `ttype` here because `type` is a Lean keyword. -/
structure Task where
  id : Option Int := none
  title : Option String := none
  ttype : Option String := none
  priority : Option String := none
  who_asked : Option String := none
  assignee : Option String := none
  start_date : Option String := none
  deadline : Option String := none
  status : Option String := none
  focus : Option Bool := none
  created_at : Option String := none
  completed_at : Option (Option String) := none
  description : Option String := none
  time_spent_minutes : Option Int := none
  sessions : Option (List Session) := none
deriving DecidableEq, Repr

/-- The `meta` sub-dict of the aggregate. -/
structure Meta where
  last_focus_date : Option String := none
  people : List String := []
deriving DecidableEq, Repr

/-- The persisted aggregate `self.data`. -/
structure Store where
  tasks : List Task := []
  meta : Meta := {}
deriving DecidableEq, Repr

/-- Embedding of module-level `sort_key`'s result tuple
`(priority rank, deadline, start_date, created_at)`. -/
structure SortKey where
  pr : Nat
  dl : PyDate
  sd : PyDate
  created : PyDateTime
deriving DecidableEq, Repr

/-- Embedding of module-level `sort_key`: priority rank via
`PRIORITY_ORDER.get(task.get("priority", "Medium"), 1)`, deadline and start
date via `parse_date(...) or date(9999, 12, 31)`, creation timestamp via
`datetime.fromisoformat(task.get("created_at", ""))` with every failure
replaced by `datetime(2099, 1, 1)`. -/
def sort_key (t : Task) : SortKey where
  pr := priorityRank (t.priority.getD "Medium")
  dl := (parse_date (t.deadline.getD "")).getD ⟨9999, 12, 31⟩
  sd := (parse_date (t.start_date.getD "")).getD ⟨9999, 12, 31⟩
  created := (fromisoformat (t.created_at.getD "")).getD ⟨2099, 1, 1, 0, 0, 0⟩

/-- Python tuple comparison on the four-component sort key: lexicographic. -/
def keyLt (a b : SortKey) : Prop :=
  a.pr < b.pr ∨ (a.pr = b.pr ∧
    (dateLt a.dl b.dl ∨ (a.dl = b.dl ∧
      (dateLt a.sd b.sd ∨ (a.sd = b.sd ∧ dtLt a.created b.created)))))

instance keyLtDec (a b : SortKey) : Decidable (keyLt a b) := by
  unfold keyLt; infer_instance

/-- The weak order induced by the key comparison: `a` may precede `b` when
`sort_key b < sort_key a` fails. -/
def taskLe (a b : Task) : Bool := decide (¬ keyLt (sort_key b) (sort_key a))

/-- `tasks.sort(key=sort_key)`: Python's stable ascending sort by key,
embedded as a stable merge sort with the induced weak order. -/
def sortTasks (l : List Task) : List Task :=
  l.mergeSort taskLe

/-! ### Store operations -/

/-- Embedding of `TaskStore._ensure_task_defaults`: five `setdefault` calls. -/
def ensure_task_defaults (t : Task) : Task :=
  { t with
    description := some (t.description.getD "")
    assignee := some (t.assignee.getD "")
    time_spent_minutes := some (t.time_spent_minutes.getD 0)
    sessions := some (t.sessions.getD [])
    completed_at := some (t.completed_at.getD none) }

/-- Python `str.strip()` on a `String`. -/
def pyStrip (s : String) : String := ⟨stripChars s.toList⟩

/-- String comparison used by Python's `sorted` (lexicographic `<`). -/
def strLeB (a b : String) : Bool := decide ¬ (b < a)

/-- Embedding of `TaskStore.register_people` (the last definition in the
class body): strip the supplied names, ignore empty ones, and if any is new,
replace `meta.people` with the sorted set union. -/
def register_people (s : Store) (names : List (Option String)) : Store :=
  let names_clean := names.filterMap fun o =>
    match o with
    | some n => if n ≠ "" && pyStrip n ≠ "" then some (pyStrip n) else none
    | none => none
  if names_clean = [] then s
  else
    let current := s.meta.people
    if names_clean.all (fun n => current.contains n) then s
    else
      { s with meta := { s.meta with
          people := (current ++ names_clean).dedup.mergeSort strLeB } }

/-- Embedding of `TaskStore.save`: the snapshot written is the whole current
aggregate.  Mutators below collect the snapshots they write, in order, so
that the persistence behaviour is part of the model. -/
def save (s : Store) : Store × List Store := (s, [s])

/-- Embedding of the normalisation performed by `TaskStore.load` on a
successfully parsed snapshot: `_ensure_task_defaults` on every task and
`register_people(who_asked, assignee)` for each (the `meta` back-compat
branches are identity on a well-shaped aggregate). -/
def load_normalize (raw : Store) : Store :=
  let s1 : Store := { raw with tasks := raw.tasks.map ensure_task_defaults }
  s1.tasks.foldl (fun acc t => register_people acc [t.who_asked, t.assignee]) s1

/-- Embedding of `TaskStore._next_id`: 1 when there are no tasks, else
`max(t.get("id", 0) for t in tasks) + 1`. -/
def next_id (s : Store) : Int :=
  match s.tasks with
  | [] => 1
  | t :: ts => (ts.foldl (fun m u => max m (u.id.getD 0)) (t.id.getD 0)) + 1

/-- Embedding of `TaskStore.add_task`: fill defaults on the draft dict
(`setdefault` keeps any value the draft already carries), append the
defaulted record, register people, save; returns the stored record.
`today` and `now` stand for `today_str()` and
`datetime.now().isoformat(timespec="seconds")`. -/
def add_task (s : Store) (draft : Task) (today now : String) :
    Store × List Store × Task :=
  let t := { draft with
    id := some (draft.id.getD (next_id s))
    ttype := some (draft.ttype.getD "Make")
    priority := some (draft.priority.getD "Medium")
    who_asked := some (draft.who_asked.getD "")
    start_date := some (draft.start_date.getD today)
    deadline := some (draft.deadline.getD "")
    status := some (draft.status.getD "open")
    focus := some (draft.focus.getD false)
    created_at := some (draft.created_at.getD now)
    completed_at := some (draft.completed_at.getD none) }
  let t := ensure_task_defaults t
  let s1 : Store := { s with tasks := s.tasks ++ [t] }
  let s2 := register_people s1 [t.who_asked, t.assignee]
  let sv := save s2
  (sv.1, sv.2, t)

/-- Embedding of `TaskStore.delete_task`: filter out the id, save. -/
def delete_task (s : Store) (task_id : Int) : Store × List Store :=
  save { s with tasks := s.tasks.filter fun t => ¬ (t.id = some task_id) }

/-- The description transformation performed by `append_session`: strip
trailing whitespace, then append (on a new line when anything remains) the
log line `[timestamp] (minutes min) note`, the note omitted when empty. -/
def descAppend (old : String) (m : Int) (note ts : String) : String :=
  let addition := "[" ++ ts ++ "] (" ++ toString m ++ " min)"
    ++ (if note ≠ "" then " " ++ note else "")
  let existing : String := ⟨rstripChars old.toList⟩
  if existing ≠ "" then existing ++ "\n" ++ addition else addition

/-- Embedding of the per-task update performed by `TaskStore.append_session`
on the first task whose id matches (ensure defaults, append the session
entry, bump the stored minute counter, append the log line to the
description). -/
def append_session_task (m : Int) (note ts : String) (t : Task) : Task :=
  let t := ensure_task_defaults t
  let entry : Session := ⟨some ts, some m, some note⟩
  { t with
    sessions := some (t.sessions.getD [] ++ [entry])
    time_spent_minutes := some (t.time_spent_minutes.getD 0 + m)
    description := some (descAppend (t.description.getD "") m note ts) }

/-- Walk the task list as the Python `for` loop does: update the first task
whose id matches and report whether one was found. -/
def append_session_list (task_id : Int) (m : Int) (note ts : String) :
    List Task → List Task × Bool
  | [] => ([], false)
  | t :: rest =>
    if t.id = some task_id then (append_session_task m note ts t :: rest, true)
    else
      let r := append_session_list task_id m note ts rest
      (t :: r.1, r.2)

/-- Embedding of `TaskStore.append_session` (the final definition in the
class body, the one Python keeps): on a hit, mutate the task, save and
return the new session entry; on a miss, return `None` without saving.
`ts` stands for `datetime.now().strftime("%Y-%m-%d %H:%M")`. -/
def append_session (s : Store) (task_id : Int) (m : Int) (note ts : String) :
    Store × List Store × Option Session :=
  let r := append_session_list task_id m note ts s.tasks
  if r.2 then
    let sv := save { s with tasks := r.1 }
    (sv.1, sv.2, some ⟨some ts, some m, some note⟩)
  else (s, [], none)

/-- Embedding of `TaskStore.eligible_today`: open tasks whose start date
(unparseable dates falling back to `date(1970, 1, 1)`) is at most today. -/
def eligible_today (s : Store) (today : PyDate) : List Task :=
  s.tasks.filter fun t =>
    t.status = some "open" ∧
      dateLe ((parse_date (t.start_date.getD "")).getD ⟨1970, 1, 1⟩) today

/-- Embedding of `TaskStore.clear_focus`: set `focus = False` on every task
whose focus flag is truthy, then save. -/
def clear_focus (s : Store) : Store × List Store :=
  save { s with tasks := s.tasks.map fun t =>
    if t.focus.getD false then { t with focus := some false } else t }

/-- Truthiness of `t.get("id") in selected_ids` (a missing id is `None`,
which is never in a list of ints). -/
def idSelected (sel : List Int) (t : Task) : Bool :=
  match t.id with
  | some i => sel.contains i
  | none => false

/-- Embedding of `TaskStore.set_focus_for_today`: `clear_focus()` (which
already saves once), then set `focus = True` on each selected task that is
still open, stamp `meta.last_focus_date`, and save again. -/
def set_focus_for_today (s : Store) (sel : List Int) (today : String) :
    Store × List Store :=
  let c := clear_focus s
  let s2 : Store :=
    { tasks := c.1.tasks.map fun t =>
        if idSelected sel t && decide (t.status = some "open")
        then { t with focus := some true } else t
      meta := { c.1.meta with last_focus_date := some today } }
  let sv := save s2
  (sv.1, c.2 ++ sv.2)

/-! ### The search predicate (`TaskFocusApp._task_matches_query`) -/

/-- The lowercase blob the code actually searches: title, description,
who_asked, assignee, type and every session note, the non-empty ones joined
by single spaces and the result lowercased. -/
def searchBlob (t : Task) : List Char :=
  let haystacks := [t.title.getD "", t.description.getD "", t.who_asked.getD "",
    t.assignee.getD "", t.ttype.getD ""]
    ++ (t.sessions.getD []).map fun s => s.note.getD ""
  lowerChars (joinSpace ((haystacks.map String.toList).filter (· ≠ [])))

/-- Whitespace-separated tokens of the lowercased query, as the code computes
them (`query.split()` followed by a truthiness filter). -/
def queryTokens (query : String) : List (List Char) :=
  (splitWs (lowerChars query.toList)).filter (· ≠ [])

/-- Embedding of `TaskFocusApp._task_matches_query`: the empty query matches
everything; otherwise the lowercased query must be a substring of the blob,
or failing that every token of the query must be a substring of the blob
(and a tokenless query matches nothing). -/
def task_matches_query (t : Task) (query : String) : Bool :=
  if query = "" then true
  else
    let combined := searchBlob t
    let q := lowerChars query.toList
    if containsSub q combined then true
    else
      let tokens := queryTokens query
      if tokens.isEmpty then false
      else tokens.all fun tok => containsSub tok combined

/-- The blob claim C8 describes, written from the spec's words for
comparison with `searchBlob`: it additionally lists priority, start_date and
deadline (the spec's labels and plan-item texts have no counterpart in this
program's task records, so they contribute nothing). -/
def claimSearchBlob (t : Task) : List Char :=
  let haystacks := [t.title.getD "", t.description.getD "", t.who_asked.getD "",
    t.assignee.getD "", t.ttype.getD "", t.priority.getD "",
    t.start_date.getD "", t.deadline.getD ""]
    ++ (t.sessions.getD []).map fun s => s.note.getD ""
  lowerChars (joinSpace ((haystacks.map String.toList).filter (· ≠ [])))

/-- The matching predicate claim C8 describes, over `claimSearchBlob`. -/
def claimMatchesQuery (t : Task) (query : String) : Bool :=
  if query = "" then true
  else
    let combined := claimSearchBlob t
    let q := lowerChars query.toList
    if containsSub q combined then true
    else
      let tokens := queryTokens query
      if tokens.isEmpty then false
      else tokens.all fun tok => containsSub tok combined

/-! ### The bulk-import line parser (`TaskFocusApp._parse_template_line`) -/

/-- Embedding of `re.match(r"^\s*(\w+)\s*:\s*(.+)$", line)`, returning the
word group and the stripped tail group.  The parse reads a maximal word
run; a shorter run would be followed by a word character, which can match
neither `\s*` nor `:`, so the maximal run is the only candidate.  The code
immediately strips group 2, which absorbs the `\s*`-versus-`.+` backtracking
at the end of the pattern. -/
def matchHead (line : List Char) : Option (List Char × List Char) :=
  let rest0 := line.dropWhile isWs
  let w := rest0.takeWhile isWordChar
  if w = [] then none
  else
    match (rest0.drop w.length).dropWhile isWs with
    | ':' :: r2 => if r2 = [] then none else some (w, stripChars r2)
    | _ => none

/-- The separator characters of the bulk-import mini-language. -/
def isDash (c : Char) : Bool := c = '—' || c = '-'

/-- Try to match the separator `\s+[—\-]{1,2}\s+` at the head of the list,
returning the remainder after the match.  The leading and trailing
whitespace runs are maximal, as the greedy pattern takes them; after two
dashes a third dash or any non-whitespace character kills the match (a
one-dash retreat would need whitespace where the second dash stands). -/
def trySepAt (cs : List Char) : Option (List Char) :=
  let ws := cs.takeWhile isWs
  if ws = [] then none
  else
    match cs.drop ws.length with
    | d1 :: d2 :: rest =>
      if isDash d1 then
        if isDash d2 then
          let ws2 := rest.takeWhile isWs
          if ws2 = [] then none else some (rest.drop ws2.length)
        else
          let ws2 := (d2 :: rest).takeWhile isWs
          if ws2 = [] then none else some ((d2 :: rest).drop ws2.length)
      else none
    | _ => none

/-- Scanner for `re.split(r"\s+[—\-]{1,2}\s+", rest)`: walk left to right,
splitting at the leftmost separator match each time.  The fuel argument only
bounds the recursion; `splitSegs` supplies more than the list length, so the
zero-fuel branch is never taken. -/
def splitSegsGo : Nat → List Char → List Char → List (List Char)
  | 0, acc, rest => [acc.reverse ++ rest]
  | _ + 1, acc, [] => [acc.reverse]
  | fuel + 1, acc, c :: rest =>
    match trySepAt (c :: rest) with
    | some rem => acc.reverse :: splitSegsGo fuel [] rem
    | none => splitSegsGo fuel (c :: acc) rest

/-- Embedding of `re.split(r"\s+[—\-]{1,2}\s+", rest)`. -/
def splitSegs (cs : List Char) : List (List Char) :=
  splitSegsGo (cs.length + 1) [] cs

/-- Case-insensitive literal match at the head of the list (`word` is given
lowercased); returns the remainder. -/
def dropLit (word : String) (cs : List Char) : Option (List Char) :=
  if lowerChars (cs.take word.length) = word.toList then some (cs.drop word.length)
  else none

/-- The value captured by a trailing `\s*:?\s*(.+)$` and then stripped, with
Python's backtracking folded in: if nothing at all follows there is no match;
if only whitespace or a bare colon-plus-whitespace follows, backtracking
makes `.+` swallow trailing characters that the strip then removes (leaving
`":"` itself when the input ends right after the colon). -/
def valueOf (A : List Char) : List Char :=
  let B := A.dropWhile isWs
  match B with
  | [] => []
  | ':' :: C =>
    let D := C.dropWhile isWs
    if D = [] then (if C = [] then [':'] else []) else stripChars D
  | _ => stripChars B

/-- Match `\s*:?\s*(.+)$` after a keyword: fails only on an empty remainder. -/
def matchVal (A : List Char) : Option (List Char) :=
  if A = [] then none else some (valueOf A)

/-- Key pattern `(?i)^asked\s+by\s*:?\s*(.+)$`. -/
def matchAskedBy (s : List Char) : Option (List Char) :=
  match dropLit "asked" s with
  | some r1 =>
    let ws := r1.takeWhile isWs
    if ws = [] then none
    else
      match dropLit "by" (r1.drop ws.length) with
      | some r2 => matchVal r2
      | none => none
  | none => none

/-- Second alternative of the assignee pattern, `assigned\s+to`. -/
def matchAssignedTo (s : List Char) : Option (List Char) :=
  match dropLit "assigned" s with
  | some r1 =>
    let ws := r1.takeWhile isWs
    if ws = [] then none
    else
      match dropLit "to" (r1.drop ws.length) with
      | some r2 => matchVal r2
      | none => none
  | none => none

/-- Key pattern `(?i)^(assignee|assigned\s+to)\s*:?\s*(.+)$`; the regex tries
the alternatives in order and backtracks into the second when the tail of
the pattern fails after the first. -/
def matchAssignee (s : List Char) : Option (List Char) :=
  match dropLit "assignee" s with
  | some r =>
    match matchVal r with
    | some v => some v
    | none => matchAssignedTo s
  | none => matchAssignedTo s

/-- Key pattern `(?i)^start\s*:?\s*(.+)$`. -/
def matchStart (s : List Char) : Option (List Char) :=
  match dropLit "start" s with
  | some r => matchVal r
  | none => none

/-- Key pattern `(?i)^deadline\s*:?\s*(.+)$`. -/
def matchDeadline (s : List Char) : Option (List Char) :=
  match dropLit "deadline" s with
  | some r => matchVal r
  | none => none

/-- Key pattern `(?i)^priority\s*:?\s*(high|medium|low)$`: anchored, so the
whole remainder after the optional colon must be one of the three words (a
backtracked shorter `\s*` would leave a leading whitespace or colon, which
none of the words can match). -/
def matchPriorityVal (s : List Char) : Option (List Char) :=
  match dropLit "priority" s with
  | some A =>
    if A = [] then none
    else
      let B := A.dropWhile isWs
      let C := match B with | ':' :: r => r.dropWhile isWs | _ => B
      let low := lowerChars C
      if low = "high".toList ∨ low = "medium".toList ∨ low = "low".toList
      then some C else none
  | none => none

/-- The `notes?` alternative of the description pattern: greedy `s?` first,
with fallback to the bare `note` when the tail of the pattern fails. -/
def matchNotes (s : List Char) : Option (List Char) :=
  match dropLit "notes" s with
  | some r =>
    match matchVal r with
    | some v => some v
    | none =>
      match dropLit "note" s with
      | some r2 => matchVal r2
      | none => none
  | none =>
    match dropLit "note" s with
    | some r2 => matchVal r2
    | none => none

/-- The `desc` alternative of the description pattern, falling through to
`notes?`. -/
def matchDescShort (s : List Char) : Option (List Char) :=
  match dropLit "desc" s with
  | some r =>
    match matchVal r with
    | some v => some v
    | none => matchNotes s
  | none => matchNotes s

/-- Key pattern `(?i)^(description|desc|notes?)\s*:?\s*(.+)$`: the regex
tries `description`, `desc`, `notes`, `note` in that order, falling through
whenever the rest of the pattern fails. -/
def matchDesc (s : List Char) : Option (List Char) :=
  match dropLit "description" s with
  | some r =>
    match matchVal r with
    | some v => some v
    | none => matchDescShort s
  | none => matchDescShort s

/-- The mutable locals of `_parse_template_line`'s segment loop. -/
structure LineFields where
  who : String
  assignee : String
  start_s : String
  deadline_s : String
  pr : String
  description : String
deriving DecidableEq, Repr

/-- One iteration of the segment loop: strip the segment, try each key
pattern in source order, `continue` on the first hit. -/
def processSeg (f : LineFields) (seg : List Char) : LineFields :=
  let s := stripChars seg
  match matchAskedBy s with
  | some v => { f with who := ⟨v⟩ }
  | none =>
  match matchAssignee s with
  | some v => { f with assignee := ⟨v⟩ }
  | none =>
  match matchStart s with
  | some v =>
    match parse_date ⟨v⟩ with
    | some d => { f with start_s := formatDate d }
    | none => f
  | none =>
  match matchDeadline s with
  | some v =>
    match parse_date ⟨v⟩ with
    | some d => { f with deadline_s := formatDate d }
    | none => f
  | none =>
  match matchPriorityVal s with
  | some v => { f with pr := ⟨capitalizeChars v⟩ }
  | none =>
  match matchDesc s with
  | some v => { f with description := ⟨v⟩ }
  | none => f

/-- Embedding of `TaskFocusApp._parse_template_line`.  `today` stands for
`today_str()`. -/
def parse_template_line (today : String) (line : String) : Option Task :=
  match matchHead line.toList with
  | none => none
  | some (w, rest) =>
    let ttype0 : String := ⟨capitalizeChars w⟩
    let parts := splitSegs rest
    let title : String := ⟨stripChars (parts.headD [])⟩
    let info := parts.drop 1
    let f := info.foldl processSeg
      { who := "", assignee := "", start_s := today, deadline_s := "",
        pr := "Medium", description := "" }
    let ttype := if TASK_TYPES.contains ttype0 then ttype0 else TASK_TYPES.headD ""
    let pr := if PRIORITIES.contains f.pr then f.pr else PRIORITIES.getD 1 ""
    some { title := some title, ttype := some ttype, priority := some pr,
           who_asked := some f.who, assignee := some f.assignee,
           start_date := some f.start_s, deadline := some f.deadline_s,
           status := some "open", focus := some false,
           description := some f.description }

/-- Embedding of `TaskFocusApp._bulk_import` on the already-split text:
strip each line, drop blank ones, parse each survivor, and add exactly the
parses that produced a record with a non-empty title, counting them. -/
def bulk_import (s : Store) (today now : String) (rawLines : List String) :
    Store × Nat :=
  let lines := (rawLines.map pyStrip).filter (· ≠ "")
  lines.foldl
    (fun acc ln =>
      match parse_template_line today ln with
      | some t =>
        if t.title.getD "" ≠ "" then ((add_task acc.1 t today now).1, acc.2 + 1)
        else acc
      | none => acc)
    (s, 0)

/-! ### Plan/Session reconciliation (claim C2)

The repository's source contains no checklist machinery at all: no plan
items, no sessions with `plan_items`, and no `merge_plan_items`.  The
definitions in this section are therefore built from the specification's
description of the Reconciliation Engine (§4.2) and settled against that
model. -/

/-- Modelled from the spec: a PlanItem of §3 (`merge_plan_items` and the
reconciliation rules are absent from the source).  `completed_by` is the
weak session reference; `none` means manual or unattributed completion. -/
structure PlanItem where
  id : String
  text : String
  completed : Bool
  completed_at : Option String
  completed_by : Option String
deriving DecidableEq, Repr

/-- Modelled from the spec: the session fields the Reconciliation Engine
reads, an id and the list of PlanItem ids the session claims. -/
structure PlanSession where
  id : String
  plan_items : List String
deriving DecidableEq, Repr

/-- Modelled from the spec: the plan-and-sessions part of a task, the state
`merge_plan_items` reads and rewrites. -/
structure PlanTask where
  plan : List PlanItem
  sessions : List PlanSession
deriving DecidableEq, Repr

/-- Modelled from the spec: an incoming checklist item handed to
`merge_plan_items`; `id`, `completed_at` and `completed_by` may be omitted. -/
structure IncomingItem where
  id : Option String
  text : String
  completed : Bool
  completed_at : Option String
  completed_by : Option String
deriving DecidableEq, Repr

/-- Modelled from the spec: rebuild one item of the final list.  Identity is
preserved by `id` when present, else a fresh id is minted; a completed item
that omits both completion fields inherits them from the previous record
when that record was already completed, and is stamped `completed_at = now`
otherwise; an uncompleted item has both fields forced to null. -/
def mergeBuildStep (now : String) (fresh : Nat → String) (prevPlan : List PlanItem)
    (acc : List PlanItem × Nat) (inc : IncomingItem) : List PlanItem × Nat :=
  if pyStrip inc.text = "" then acc
  else
    let pid := match inc.id with | some i => i | none => fresh acc.2
    let k := match inc.id with | some _ => acc.2 | none => acc.2 + 1
    let prev := prevPlan.find? fun p => p.id = pid
    let fields : Option String × Option String :=
      if inc.completed then
        if inc.completed_at = none ∧ inc.completed_by = none then
          match prev with
          | some p => if p.completed then (p.completed_at, p.completed_by)
                      else (some now, none)
          | none => (some now, none)
        else (inc.completed_at, inc.completed_by)
      else (none, none)
    (acc.1 ++ [⟨pid, inc.text, inc.completed, fields.1, fields.2⟩], k)

/-- Modelled from the spec: the final list built by the first phase of the
merge. -/
def mergeBuilt (now : String) (fresh : Nat → String) (task : PlanTask)
    (incoming : List IncomingItem) : List PlanItem :=
  (incoming.foldl (mergeBuildStep now fresh task.plan) ([], 0)).1

/-- Modelled from the spec: purge from every session's `plan_items` any id
no longer present in the final list. -/
def purgeSessions (finalIds : List String) (ss : List PlanSession) :
    List PlanSession :=
  ss.map fun s =>
    { s with plan_items := s.plan_items.filter fun i => finalIds.contains i }

/-- Modelled from the spec: re-derive `completed_by` authority — an item may
only keep `completed_by = S` if session `S` still lists it; otherwise the
attribution is cleared. -/
def rederiveItem (sessions' : List PlanSession) (p : PlanItem) : PlanItem :=
  match p.completed_by with
  | some sid =>
    if sessions'.any (fun s => s.id = sid && s.plan_items.contains p.id)
    then p else { p with completed_by := none }
  | none => p

/-- Modelled from the spec: `merge_plan_items(task, incomingItems)` — build
the final list, purge the sessions, re-derive completion authority. -/
def merge_plan_items (now : String) (fresh : Nat → String) (task : PlanTask)
    (incoming : List IncomingItem) : PlanTask :=
  let built := mergeBuilt now fresh task incoming
  let sessions' := purgeSessions (built.map PlanItem.id) task.sessions
  ⟨built.map (rederiveItem sessions'), sessions'⟩

/-- The ownership-of-completion invariant of §3: every attributed item's
session exists and still lists the item. -/
def ownershipInv (t : PlanTask) : Prop :=
  ∀ p ∈ t.plan, ∀ sid, p.completed_by = some sid →
    ∃ s ∈ t.sessions, s.id = sid ∧ p.id ∈ s.plan_items

/-- Resubmitting a merged item unchanged: the identity is the item's id and
all stored fields are carried along. -/
def resubmit (p : PlanItem) : IncomingItem :=
  ⟨some p.id, p.text, p.completed, p.completed_at, p.completed_by⟩

/-! ### Derived notions used by the claims -/

/-- Sum of the `minutes` entries of a session list. -/
def sessionMinutesSum (l : List Session) : Int :=
  (l.map fun s => s.minutes.getD 0).sum

/-- The claimed invariant of C1: the stored counter equals the sum of the
session minutes. -/
def time_spent_inv (t : Task) : Prop :=
  t.time_spent_minutes.getD 0 = sessionMinutesSum (t.sessions.getD [])

instance time_spent_inv_dec (t : Task) : Decidable (time_spent_inv t) := by
  unfold time_spent_inv; infer_instance

/-- A legacy snapshot carrying a stored counter that disagrees with its
(empty) session list. -/
def legacySnapshot : Store :=
  { tasks := [{ id := some 1, status := some "open",
                time_spent_minutes := some 5, sessions := some [] }],
    meta := {} }

/-! ### Helper lemmas -/

lemma append_session_task_inv (m : Int) (note ts : String) (t : Task)
    (h : time_spent_inv t) : time_spent_inv (append_session_task m note ts t) := by
  unfold time_spent_inv sessionMinutesSum at h ⊢
  unfold append_session_task ensure_task_defaults
  simp only [Option.getD_some, List.map_append, List.sum_append, List.map_cons,
    List.map_nil, List.sum_cons, List.sum_nil]
  omega

lemma append_session_list_inv (tid m : Int) (note ts : String) :
    ∀ l : List Task, (∀ t ∈ l, time_spent_inv t) →
      ∀ t' ∈ (append_session_list tid m note ts l).1, time_spent_inv t' := by
  intro l
  induction l with
  | nil => intro _ t' ht'; simp [append_session_list] at ht'
  | cons t rest ih =>
    intro h t' ht'
    by_cases hid : t.id = some tid
    · simp only [append_session_list, if_pos hid, List.mem_cons] at ht'
      rcases ht' with rfl | ht'
      · exact append_session_task_inv m note ts t (h t (by simp))
      · exact h t' (by simp [ht'])
    · simp only [append_session_list, if_neg hid, List.mem_cons] at ht'
      rcases ht' with rfl | ht'
      · exact h t' (by simp)
      · exact ih (fun u hu => h u (by simp [hu])) t' ht'

lemma append_session_list_found (tid m : Int) (note ts : String) :
    ∀ (pre : List Task), (∀ u ∈ pre, ¬ u.id = some tid) →
      ∀ (t : Task), t.id = some tid → ∀ (post : List Task),
        append_session_list tid m note ts (pre ++ t :: post) =
          (pre ++ append_session_task m note ts t :: post, true) := by
  intro pre
  induction pre with
  | nil => intro _ t ht post; simp [append_session_list, ht]
  | cons u us ih =>
    intro hpre t ht post
    have hu : ¬ u.id = some tid := hpre u (by simp)
    have ihh := ih (fun v hv => hpre v (by simp [hv])) t ht post
    simp only [List.cons_append, append_session_list, if_neg hu,
      List.append_eq, ihh]

/-! ### Claim C1 -/

/-- Claim C1 fails on the code: `load` only fills missing keys with
`setdefault`, trusting any stored `time_spent_minutes`, so a legacy record
whose counter disagrees with its sessions still violates the invariant
after the mutating `load` call. -/
theorem load_trusts_stored_minutes :
    ((load_normalize legacySnapshot).tasks.all
      fun t => decide (time_spent_inv t)) = false := by
  decide

/-- C1 (amended): `time_spent_minutes` is maintained incrementally, not
recomputed.  `append_session` adds the logged minutes to the stored counter
while appending a session carrying the same minutes, so every task satisfies
`time_spent_minutes = sum(sessions[*].minutes)` after the call provided
every task satisfied it before; a stored counter is otherwise trusted. -/
theorem append_session_preserves_minutes_sum (s : Store) (tid m : Int)
    (note ts : String) (h : ∀ t ∈ s.tasks, time_spent_inv t) :
    ∀ t' ∈ (append_session s tid m note ts).1.tasks, time_spent_inv t' := by
  intro t' ht'
  unfold append_session at ht'
  by_cases hf : (append_session_list tid m note ts s.tasks).2
  · simp only [if_pos hf, save] at ht'
    exact append_session_list_inv tid m note ts s.tasks h t' ht'
  · simp only [if_neg hf] at ht'
    exact h t' ht'

/-- Witness for the amended C1 at a concrete consistent store. -/
theorem append_session_preserves_minutes_sum_witness :
    ((append_session
        { tasks := [{ id := some 1, time_spent_minutes := some 0,
                      sessions := some [] }], meta := {} }
        1 30 "did X" "2024-01-02 10:00").1.tasks.all
      fun t' => decide (time_spent_inv t')) = true := by
  have h := append_session_preserves_minutes_sum
    { tasks := [{ id := some 1, time_spent_minutes := some 0,
                  sessions := some [] }], meta := {} }
    1 30 "did X" "2024-01-02 10:00" (by decide)
  rw [List.all_eq_true]
  intro t' ht'
  exact decide_eq_true (h t' ht')

/-! ### Claim C3 -/

/-- Claim C3: provided the epoch sentinel `date(1970, 1, 1)` is at most
today (true whenever the program runs), `eligible_today` returns exactly the
tasks that are open and whose start date is missing/unparseable or parses to
a date at most today. -/
theorem eligible_today_charac (s : Store) (today : PyDate)
    (h : dateLe ⟨1970, 1, 1⟩ today) (t : Task) :
    t ∈ eligible_today s today ↔
      t ∈ s.tasks ∧ t.status = some "open" ∧
        (parse_date (t.start_date.getD "") = none ∨
          ∃ d, parse_date (t.start_date.getD "") = some d ∧ dateLe d today) := by
  unfold eligible_today
  rw [List.mem_filter]
  constructor
  · rintro ⟨hmem, hcond⟩
    rw [decide_eq_true_eq] at hcond
    obtain ⟨hst, hdate⟩ := hcond
    refine ⟨hmem, hst, ?_⟩
    cases hp : parse_date (t.start_date.getD "") with
    | none => exact Or.inl rfl
    | some d =>
      right
      refine ⟨d, rfl, ?_⟩
      rwa [hp, Option.getD_some] at hdate
  · rintro ⟨hmem, hst, hd⟩
    refine ⟨hmem, ?_⟩
    rw [decide_eq_true_eq]
    refine ⟨hst, ?_⟩
    rcases hd with hnone | ⟨d, hp, hle⟩
    · rw [hnone]; exact h
    · rw [hp]; exact hle

/-- Witness for C3: a concrete open task with no start date is eligible. -/
theorem eligible_today_charac_witness :
    ({ id := some 1, status := some "open" } : Task) ∈
      eligible_today { tasks := [{ id := some 1, status := some "open" }],
                       meta := {} } ⟨2024, 1, 2⟩ :=
  (eligible_today_charac
      { tasks := [{ id := some 1, status := some "open" }], meta := {} }
      ⟨2024, 1, 2⟩ (by decide) { id := some 1, status := some "open" }).mpr
    ⟨by simp, rfl, Or.inl rfl⟩

/-! ### Claim C10 -/

/-- Claim C10: `append_session` on a present task id rewrites the matched
task's description: the old description is stripped of trailing whitespace
and the line `[timestamp] (minutes min) note` (without the trailing note
when it is empty) is appended, on a new line when anything remains. -/
theorem append_session_rewrites_description (s : Store) (tid m : Int)
    (note ts : String) (pre post : List Task) (t : Task)
    (hs : s.tasks = pre ++ t :: post)
    (hpre : ∀ u ∈ pre, ¬ u.id = some tid) (ht : t.id = some tid) :
    (append_session s tid m note ts).1.tasks
        = pre ++ append_session_task m note ts t :: post ∧
      (append_session_task m note ts t).description
        = some (descAppend (t.description.getD "") m note ts) ∧
      descAppend (t.description.getD "") m note ts
        = (if (⟨rstripChars (t.description.getD "").toList⟩ : String) ≠ ""
           then (⟨rstripChars (t.description.getD "").toList⟩ : String)
             ++ "\n" ++ ("[" ++ ts ++ "] (" ++ toString m ++ " min)"
               ++ (if note ≠ "" then " " ++ note else ""))
           else "[" ++ ts ++ "] (" ++ toString m ++ " min)"
             ++ (if note ≠ "" then " " ++ note else "")) := by
  refine ⟨?_, rfl, rfl⟩
  unfold append_session
  rw [hs, append_session_list_found tid m note ts pre hpre t ht post]
  simp [save]

/-- Witness for C10 at a concrete store: the description gains the log
line on a new line after the trailing blanks are stripped. -/
theorem append_session_rewrites_description_witness :
    (append_session { tasks := [{ id := some 1, description := some "Old  " }],
                      meta := {} } 1 30 "did X" "2024-01-02 10:00").1.tasks
        = [append_session_task 30 "did X" "2024-01-02 10:00"
            { id := some 1, description := some "Old  " }] ∧
      (append_session_task 30 "did X" "2024-01-02 10:00"
          { id := some 1, description := some "Old  " }).description
        = some (descAppend "Old  " 30 "did X" "2024-01-02 10:00") ∧
      descAppend "Old  " 30 "did X" "2024-01-02 10:00"
        = (if (⟨rstripChars ("Old  " : String).toList⟩ : String) ≠ ""
           then (⟨rstripChars ("Old  " : String).toList⟩ : String)
             ++ "\n" ++ ("[" ++ "2024-01-02 10:00" ++ "] ("
               ++ toString (30 : Int) ++ " min)"
               ++ (if ("did X" : String) ≠ "" then " " ++ "did X" else ""))
           else "[" ++ "2024-01-02 10:00" ++ "] (" ++ toString (30 : Int)
             ++ " min)"
             ++ (if ("did X" : String) ≠ "" then " " ++ "did X" else "")) :=
  append_session_rewrites_description
    { tasks := [{ id := some 1, description := some "Old  " }], meta := {} }
    1 30 "did X" "2024-01-02 10:00" [] []
    { id := some 1, description := some "Old  " } rfl (by simp) rfl

/-! ### Claims C5 and C6 -/

lemma set_focus_tasks (s : Store) (sel : List Int) (d : String) :
    (set_focus_for_today s sel d).1.tasks =
      s.tasks.map fun t =>
        let t1 := if t.focus.getD false then { t with focus := some false } else t
        if idSelected sel t1 && decide (t1.status = some "open")
        then { t1 with focus := some true } else t1 := by
  unfold set_focus_for_today clear_focus save
  simp only [List.map_map]
  rfl

lemma idSelected_nil (t : Task) : idSelected [] t = false := by
  unfold idSelected; cases t.id <;> simp

lemma focus_value_after_set (sel : List Int) (t : Task) :
    ((let t1 := if t.focus.getD false then { t with focus := some false } else t
      if idSelected sel t1 && decide (t1.status = some "open")
      then { t1 with focus := some true } else t1).focus.getD false)
      = (idSelected sel t && decide (t.status = some "open")) := by
  by_cases hf : t.focus.getD false <;>
    simp only [hf, if_true, if_false, Bool.false_eq_true, ite_false, ite_true] <;>
      split <;> simp_all [idSelected]

/-- Claim C5: `set_focus_for_today` leaves `focus` truthy on exactly the
selected tasks that are still open (clearing everything else, selected or
not), and stamps `meta.last_focus_date` with today — also for an empty
selection, so selecting `[a, b]` and then `[]` leaves no focused task. -/
theorem set_focus_exactly_selected_open (s : Store) (sel : List Int) (d : String) :
    ((set_focus_for_today s sel d).1.tasks.map fun t => t.focus.getD false)
        = (s.tasks.map fun t => idSelected sel t && decide (t.status = some "open")) ∧
      (set_focus_for_today s sel d).1.meta.last_focus_date = some d ∧
      ∀ (a b : Int) (d2 : String),
        (((set_focus_for_today (set_focus_for_today s [a, b] d).1 [] d2).1.tasks).all
            fun t => !(t.focus.getD false)) = true := by
  refine ⟨?_, rfl, ?_⟩
  · rw [set_focus_tasks, List.map_map]
    exact List.map_congr_left fun t _ => focus_value_after_set sel t
  · intro a b d2
    rw [set_focus_tasks, List.all_map, List.all_eq_true]
    intro t _
    by_cases hf : t.focus.getD false <;> simp [idSelected_nil, hf]

/-- A concrete store with one focused open task, for the C6 counterexample. -/
def focusStoreW : Store :=
  { tasks := [{ id := some 1, status := some "open", focus := some true }],
    meta := { last_focus_date := some "2024-01-01", people := [] } }

/-- Claim C6 fails on the code: before the final snapshot,
`set_focus_for_today` persists an intermediate snapshot through the `save`
inside `clear_focus` — all focus flags cleared, the new selection not yet
applied, `last_focus_date` not yet advanced. -/
theorem set_focus_writes_intermediate_snapshot :
    (set_focus_for_today focusStoreW [1] "2024-01-02").2
        ≠ [(set_focus_for_today focusStoreW [1] "2024-01-02").1] ∧
      ((set_focus_for_today focusStoreW [1] "2024-01-02").2.headD {}) ∈
        (set_focus_for_today focusStoreW [1] "2024-01-02").2 ∧
      ((set_focus_for_today focusStoreW [1] "2024-01-02").2.headD {})
        ≠ (set_focus_for_today focusStoreW [1] "2024-01-02").1 ∧
      ((set_focus_for_today focusStoreW [1]
          "2024-01-02").2.headD {}).meta.last_focus_date ≠ some "2024-01-02" ∧
      (((set_focus_for_today focusStoreW [1] "2024-01-02").2.headD {}).tasks.all
        fun t => !(t.focus.getD false)) = true := by
  decide

/-- C6 (amended): `set_focus_for_today` persists twice, not once: first the
intermediate snapshot written by `clear_focus` (every focus flag cleared,
`meta` unchanged), then the final snapshot, which is exactly the resulting
state and is the last write. -/
theorem set_focus_snapshot_trace (s : Store) (sel : List Int) (d : String) :
    (set_focus_for_today s sel d).2
        = [(clear_focus s).1, (set_focus_for_today s sel d).1] ∧
      (clear_focus s).1.meta = s.meta ∧
      ((clear_focus s).1.tasks.all fun t => !(t.focus.getD false)) = true ∧
      (set_focus_for_today s sel d).2.getLast?
        = some (set_focus_for_today s sel d).1 := by
  refine ⟨rfl, rfl, ?_, rfl⟩
  unfold clear_focus save
  rw [List.all_map, List.all_eq_true]
  intro t _
  by_cases hf : t.focus.getD false <;> simp_all

/-! ### Claim C7 -/

lemma foldl_max_bounds (l : List Int) : ∀ a : Int,
    a ≤ l.foldl max a ∧ ∀ x ∈ l, x ≤ l.foldl max a := by
  induction l with
  | nil => intro a; simp
  | cons b t ih =>
    intro a
    have h := ih (max a b)
    refine ⟨le_trans (le_max_left a b) h.1, ?_⟩
    intro x hx
    rcases List.mem_cons.mp hx with rfl | hx
    · exact le_trans (le_max_right a x) h.1
    · exact h.2 x hx

lemma next_id_gt (s : Store) : ∀ t ∈ s.tasks, t.id.getD 0 < next_id s := by
  intro t ht
  rcases hs : s.tasks with _ | ⟨t0, ts⟩
  · rw [hs] at ht; simp at ht
  · rw [hs] at ht
    unfold next_id
    rw [hs]
    show t.id.getD 0 < ts.foldl (fun m u => max m (u.id.getD 0)) (t0.id.getD 0) + 1
    have hfold : ts.foldl (fun m u => max m (u.id.getD 0)) (t0.id.getD 0)
        = (ts.map fun u => u.id.getD 0).foldl max (t0.id.getD 0) := by
      rw [List.foldl_map]
    rw [hfold]
    have hb := foldl_max_bounds (ts.map fun u => u.id.getD 0) (t0.id.getD 0)
    rcases List.mem_cons.mp ht with rfl | ht
    · exact lt_of_le_of_lt hb.1 (lt_add_one _)
    · exact lt_of_le_of_lt (hb.2 _ (List.mem_map_of_mem _ ht)) (lt_add_one _)

lemma register_people_tasks (s : Store) (names : List (Option String)) :
    (register_people s names).tasks = s.tasks := by
  simp only [register_people]
  split
  · rfl
  · split <;> rfl

/-- Claim C7 fails on the code: after deleting the task holding the maximal
id, `add_task` hands the same id out again (`max(existing)+1` reuses holes
at the top), so an id assigned by `add_task` can equal an id assigned
earlier in the add/delete sequence. -/
theorem add_task_reuses_id_after_delete :
    (add_task (add_task {} {} "2024-01-01" "T0").1 {} "2024-01-01" "T0").2.2.id
        = some 2 ∧
      (add_task (delete_task
          (add_task (add_task {} {} "2024-01-01" "T0").1 {} "2024-01-01" "T0").1
          2).1 {} "2024-01-01" "T0").2.2.id = some 2 := by
  decide

/-- C7 (amended): ids are assigned as `max(ids of existing tasks) + 1`, or 1
for an empty store; for drafts that carry no id this keeps the stored ids
pairwise distinct, but deleting the maximal id makes the next `add_task`
reuse it (shown by the counterexample), so ids are only unique among the
currently stored tasks, not across deletions. -/
theorem add_task_id_assignment (s : Store) (draft : Task) (today now : String)
    (hd : draft.id = none) :
    (∀ m : Meta, next_id ⟨[], m⟩ = 1) ∧
      (add_task s draft today now).2.2.id = some (next_id s) ∧
      ((s.tasks.map fun t => t.id.getD 0).Nodup →
        ((add_task s draft today now).1.tasks.map fun t => t.id.getD 0).Nodup) := by
  refine ⟨fun m => rfl, ?_, ?_⟩
  · simp [add_task, ensure_task_defaults, hd]
  · intro hnd
    unfold add_task save
    simp only
    rw [register_people_tasks]
    simp only [List.map_append, List.map_cons, List.map_nil]
    rw [List.nodup_append]
    refine ⟨hnd, by simp, ?_⟩
    intro x hx hmem
    simp only [ensure_task_defaults, hd, Option.getD_none, Option.getD_some,
      List.mem_cons, List.not_mem_nil, or_false] at hmem
    obtain ⟨t, ht, rfl⟩ := List.mem_map.mp hx
    have := next_id_gt s t ht
    omega

/-- Witness for the amended C7 at a concrete one-task store. -/
theorem add_task_id_assignment_witness :
    next_id ⟨[], {}⟩ = 1 ∧
      (add_task { tasks := [{ id := some 1 }], meta := {} } {}
          "2024-01-01" "T0").2.2.id
        = some (next_id { tasks := [{ id := some 1 }], meta := {} }) ∧
      ((add_task { tasks := [{ id := some 1 }], meta := {} } {}
          "2024-01-01" "T0").1.tasks.map fun t => t.id.getD 0).Nodup := by
  have h := add_task_id_assignment { tasks := [{ id := some 1 }], meta := {} }
    {} "2024-01-01" "T0" rfl
  exact ⟨h.1 {}, h.2.1, h.2.2 (by decide)⟩

/-! ### Claim C4 -/

lemma dateLt_trichotomy (a b : PyDate) : dateLt a b ∨ dateLt b a ∨ a = b := by
  obtain ⟨x1, x2, x3⟩ := a
  obtain ⟨u1, u2, u3⟩ := b
  simp only [dateLt, PyDate.mk.injEq]
  omega

lemma dateLt_asymm (a b : PyDate) : dateLt a b → ¬ dateLt b a := by
  obtain ⟨x1, x2, x3⟩ := a
  obtain ⟨u1, u2, u3⟩ := b
  simp only [dateLt]
  omega

lemma dateLt_trans (a b c : PyDate) : dateLt a b → dateLt b c → dateLt a c := by
  obtain ⟨x1, x2, x3⟩ := a
  obtain ⟨u1, u2, u3⟩ := b
  obtain ⟨g1, g2, g3⟩ := c
  simp only [dateLt]
  omega

lemma dtLt_trichotomy (a b : PyDateTime) : dtLt a b ∨ dtLt b a ∨ a = b := by
  obtain ⟨z1, z2, z3, z4, z5, z6⟩ := a
  obtain ⟨w1, w2, w3, w4, w5, w6⟩ := b
  simp only [dtLt, PyDateTime.mk.injEq]
  omega

lemma dtLt_asymm (a b : PyDateTime) : dtLt a b → ¬ dtLt b a := by
  obtain ⟨z1, z2, z3, z4, z5, z6⟩ := a
  obtain ⟨w1, w2, w3, w4, w5, w6⟩ := b
  simp only [dtLt]
  omega

lemma dtLt_trans (a b c : PyDateTime) : dtLt a b → dtLt b c → dtLt a c := by
  obtain ⟨z1, z2, z3, z4, z5, z6⟩ := a
  obtain ⟨w1, w2, w3, w4, w5, w6⟩ := b
  obtain ⟨k1, k2, k3, k4, k5, k6⟩ := c
  simp only [dtLt]
  omega

lemma keyLt_trichotomy (a b : SortKey) : keyLt a b ∨ keyLt b a ∨ a = b := by
  obtain ⟨p1, d1, s1, c1⟩ := a
  obtain ⟨p2, d2, s2, c2⟩ := b
  simp only [keyLt, SortKey.mk.injEq]
  rcases Nat.lt_trichotomy p1 p2 with h | h | h
  · exact Or.inl (Or.inl h)
  · rcases dateLt_trichotomy d1 d2 with hd | hd | rfl
    · exact Or.inl (Or.inr ⟨h, Or.inl hd⟩)
    · exact Or.inr (Or.inl (Or.inr ⟨h.symm, Or.inl hd⟩))
    · rcases dateLt_trichotomy s1 s2 with hs | hs | rfl
      · exact Or.inl (Or.inr ⟨h, Or.inr ⟨rfl, Or.inl hs⟩⟩)
      · exact Or.inr (Or.inl (Or.inr ⟨h.symm, Or.inr ⟨rfl, Or.inl hs⟩⟩))
      · rcases dtLt_trichotomy c1 c2 with hc | hc | rfl
        · exact Or.inl (Or.inr ⟨h, Or.inr ⟨rfl, Or.inr ⟨rfl, hc⟩⟩⟩)
        · exact Or.inr (Or.inl (Or.inr ⟨h.symm, Or.inr ⟨rfl, Or.inr ⟨rfl, hc⟩⟩⟩))
        · exact Or.inr (Or.inr ⟨h, rfl, rfl, rfl⟩)
  · exact Or.inr (Or.inl (Or.inl h))

lemma keyLt_asymm (a b : SortKey) : keyLt a b → ¬ keyLt b a := by
  obtain ⟨p1, d1, s1, c1⟩ := a
  obtain ⟨p2, d2, s2, c2⟩ := b
  simp only [keyLt]
  rintro (h | ⟨hp, h⟩) (h' | ⟨hp', h'⟩)
  · omega
  · omega
  · omega
  · rcases h with hd | ⟨hd, h⟩
    · rcases h' with hd' | ⟨hd', h'⟩
      · exact dateLt_asymm _ _ hd hd'
      · rw [hd'] at hd; exact dateLt_asymm _ _ hd hd
    · rcases h' with hd' | ⟨hd', h'⟩
      · rw [hd] at hd'; exact dateLt_asymm _ _ hd' hd'
      · rcases h with hs | ⟨hs, h⟩
        · rcases h' with hs' | ⟨hs', h'⟩
          · exact dateLt_asymm _ _ hs hs'
          · rw [hs'] at hs; exact dateLt_asymm _ _ hs hs
        · rcases h' with hs' | ⟨hs', h'⟩
          · rw [hs] at hs'; exact dateLt_asymm _ _ hs' hs'
          · exact dtLt_asymm _ _ h h'

lemma keyLt_trans (a b c : SortKey) : keyLt a b → keyLt b c → keyLt a c := by
  obtain ⟨p1, d1, s1, c1⟩ := a
  obtain ⟨p2, d2, s2, c2⟩ := b
  obtain ⟨p3, d3, s3, c3⟩ := c
  simp only [keyLt]
  rintro (h | ⟨hp, h⟩) (h' | ⟨hp', h'⟩)
  · exact Or.inl (by omega)
  · exact Or.inl (by omega)
  · exact Or.inl (by omega)
  · refine Or.inr ⟨by omega, ?_⟩
    rcases h with hd | ⟨rfl, h⟩
    · rcases h' with hd' | ⟨rfl, h'⟩
      · exact Or.inl (dateLt_trans _ _ _ hd hd')
      · exact Or.inl hd
    · rcases h' with hd' | ⟨rfl, h'⟩
      · exact Or.inl hd'
      · refine Or.inr ⟨rfl, ?_⟩
        rcases h with hs | ⟨rfl, h⟩
        · rcases h' with hs' | ⟨rfl, h'⟩
          · exact Or.inl (dateLt_trans _ _ _ hs hs')
          · exact Or.inl hs
        · rcases h' with hs' | ⟨rfl, h'⟩
          · exact Or.inl hs'
          · exact Or.inr ⟨rfl, dtLt_trans _ _ _ h h'⟩

lemma keyLt_irrefl (a : SortKey) : ¬ keyLt a a := by
  intro h; exact keyLt_asymm a a h h

lemma taskLe_trans (a b c : Task) : taskLe a b → taskLe b c → taskLe a c := by
  unfold taskLe
  simp only [decide_eq_true_eq]
  intro hab hbc h
  rcases keyLt_trichotomy (sort_key a) (sort_key b) with hlt | hlt | heq
  · exact hbc (keyLt_trans _ _ _ h hlt)
  · exact hab hlt
  · rw [heq] at h; exact hbc h

lemma taskLe_total (a b : Task) : taskLe a b || taskLe b a := by
  unfold taskLe
  by_cases h : keyLt (sort_key b) (sort_key a)
  · simp [keyLt_asymm _ _ h]
  · simp [h]

lemma daysInMonth_le_31 (y m : Nat) : daysInMonth y m ≤ 31 := by
  unfold daysInMonth
  split
  · split <;> omega
  · split <;> omega

lemma validDate_le_max (y m d : Nat) (h : validDate y m d = true) :
    dateLe ⟨y, m, d⟩ ⟨9999, 12, 31⟩ := by
  unfold validDate at h
  have hd := daysInMonth_le_31 y m
  simp only [Bool.and_eq_true, decide_eq_true_eq] at h
  simp only [dateLe, dateLt, PyDate.mk.injEq]
  omega

lemma strptimeYmd_valid (cs : List Char) (d : PyDate)
    (h : strptimeYmd cs = some d) : validDate d.year d.month d.day = true := by
  unfold strptimeYmd at h
  split at h
  · split at h
    · split at h
      · obtain rfl := Option.some.inj h
        assumption
      · exact absurd h (by simp)
    all_goals exact absurd h (by simp)
  · exact absurd h (by simp)

lemma strptimeDmy_valid (cs : List Char) (d : PyDate)
    (h : strptimeDmy cs = some d) : validDate d.year d.month d.day = true := by
  unfold strptimeDmy at h
  split at h
  · split at h
    · split at h
      · obtain rfl := Option.some.inj h
        assumption
      · exact absurd h (by simp)
    all_goals exact absurd h (by simp)
  · exact absurd h (by simp)

lemma parse_date_valid (s : String) (d : PyDate) (h : parse_date s = some d) :
    validDate d.year d.month d.day = true := by
  unfold parse_date at h
  split at h
  · exact absurd h (by simp)
  · split at h
    · next d0 heq =>
      obtain rfl := Option.some.inj h
      exact strptimeYmd_valid _ _ heq
    · exact strptimeDmy_valid _ _ h

/-- A task without a creation timestamp, all other keys fixed. -/
def missingCreatedTask : Task :=
  { priority := some "High", deadline := some "2030-01-01",
    start_date := some "2030-01-01" }

/-- The same task created after the year 2099. -/
def lateCreatedTask : Task :=
  { priority := some "High", deadline := some "2030-01-01",
    start_date := some "2030-01-01",
    created_at := some "2100-01-01T00:00:00" }

/-- Claim C4 fails on one point: a missing or unparseable `created_at` maps
to the fixed sentinel `datetime(2099, 1, 1)`, which is not maximal — a task
created after 2099-01-01 sorts after a task with a missing timestamp, all
other keys equal, so missing does not sort last. -/
theorem missing_created_at_does_not_sort_last :
    (sort_key missingCreatedTask).pr = (sort_key lateCreatedTask).pr ∧
      (sort_key missingCreatedTask).dl = (sort_key lateCreatedTask).dl ∧
      (sort_key missingCreatedTask).sd = (sort_key lateCreatedTask).sd ∧
      fromisoformat (missingCreatedTask.created_at.getD "") = none ∧
      keyLt (sort_key missingCreatedTask) (sort_key lateCreatedTask) := by
  decide

/-- C4 (amended): the ordering is ascending on the four-key composite —
priority rank High 0 / Medium 1 / Low 2 with unknown or missing priority
ranked as Medium; deadline and start date with missing/unparseable values
mapped to the maximal sentinel `date(9999, 12, 31)` (no parseable date
exceeds it); `created_at` with failures mapped to the fixed sentinel
`datetime(2099, 1, 1)`, which later timestamps do exceed.  The comparator is
a strict total order on keys (exactly one of the three relations holds for
any two tasks), and re-sorting a sorted list changes nothing. -/
theorem sort_key_composite_order (t t1 t2 : Task) (s : String) (d0 : PyDate)
    (l : List Task) :
    (t.priority = some "High" → (sort_key t).pr = 0) ∧
      (t.priority = some "Medium" → (sort_key t).pr = 1) ∧
      (t.priority = some "Low" → (sort_key t).pr = 2) ∧
      (t.priority = none → (sort_key t).pr = 1) ∧
      (∀ p, t.priority = some p → p ∉ PRIORITIES → (sort_key t).pr = 1) ∧
      (parse_date (t.deadline.getD "") = none →
        (sort_key t).dl = ⟨9999, 12, 31⟩) ∧
      (parse_date (t.start_date.getD "") = none →
        (sort_key t).sd = ⟨9999, 12, 31⟩) ∧
      (parse_date s = some d0 → dateLe d0 ⟨9999, 12, 31⟩) ∧
      (fromisoformat (t.created_at.getD "") = none →
        (sort_key t).created = ⟨2099, 1, 1, 0, 0, 0⟩) ∧
      (keyLt (sort_key t1) (sort_key t2) ∨ keyLt (sort_key t2) (sort_key t1) ∨
        sort_key t1 = sort_key t2) ∧
      (keyLt (sort_key t1) (sort_key t2) →
        ¬ keyLt (sort_key t2) (sort_key t1) ∧ sort_key t1 ≠ sort_key t2) ∧
      sortTasks (sortTasks l) = sortTasks l := by
  refine ⟨?_, ?_, ?_, ?_, ?_, ?_, ?_, ?_, ?_, ?_, ?_, ?_⟩
  · intro h; simp [sort_key, h, priorityRank]
  · intro h; simp [sort_key, h, priorityRank]
  · intro h; simp [sort_key, h, priorityRank]
  · intro h; simp [sort_key, h, priorityRank]
  · intro p hp hnp
    simp only [PRIORITIES, List.mem_cons, List.not_mem_nil, or_false,
      not_or] at hnp
    simp [sort_key, hp, priorityRank, hnp.1, hnp.2.1, hnp.2.2]
  · intro h; simp [sort_key, h]
  · intro h; simp [sort_key, h]
  · intro h
    obtain ⟨y, m, d⟩ := d0
    exact validDate_le_max y m d (parse_date_valid s _ h)
  · intro h; simp [sort_key, h]
  · exact keyLt_trichotomy _ _
  · intro h
    refine ⟨keyLt_asymm _ _ h, ?_⟩
    intro he; rw [he] at h; exact keyLt_irrefl _ h
  · unfold sortTasks
    exact List.mergeSort_of_sorted
      (List.sorted_mergeSort taskLe_trans taskLe_total l)

/-- Witness for the amended C4 at concrete tasks, dates and lists. -/
theorem sort_key_composite_order_witness :
    (sort_key { priority := some "Low", created_at := some "bogus" }).pr = 2 ∧
      (sort_key { priority := some "Low", created_at := some "bogus" }).dl
        = ⟨9999, 12, 31⟩ ∧
      dateLe ⟨2024, 2, 29⟩ ⟨9999, 12, 31⟩ ∧
      (sort_key { priority := some "Low", created_at := some "bogus" }).created
        = ⟨2099, 1, 1, 0, 0, 0⟩ ∧
      sortTasks (sortTasks [{ priority := some "High" },
          { priority := some "Low" }, { priority := some "Medium" }])
        = sortTasks [{ priority := some "High" }, { priority := some "Low" },
            { priority := some "Medium" }] := by
  have h := sort_key_composite_order
    { priority := some "Low", created_at := some "bogus" }
    {} {} "2024-02-29" ⟨2024, 2, 29⟩
    [{ priority := some "High" }, { priority := some "Low" },
      { priority := some "Medium" }]
  exact ⟨h.2.2.1 rfl, h.2.2.2.2.2.1 rfl, h.2.2.2.2.2.2.2.1 rfl,
    h.2.2.2.2.2.2.2.2.1 (by decide), h.2.2.2.2.2.2.2.2.2.2.2⟩

/-! ### Claim C8 -/

/-- Claim C8 fails on the blob's field list: the code's haystack omits
priority (and start_date, deadline), so a query matching only the priority
finds nothing, while the blob described by the claim would match it. -/
theorem search_blob_omits_priority :
    task_matches_query { title := some "t", priority := some "High" } "high"
        = false ∧
      claimMatchesQuery { title := some "t", priority := some "High" } "high"
        = true := by
  decide

/-- C8 (amended): the blob concatenates only title, description, who_asked,
assignee, type and the session notes (no priority, dates, labels or plan
texts); a non-empty query matches iff its lowercase form is a substring of
the blob or every whitespace token of it is, and the empty query matches
every task.  The token query matches `Meeting with Bob` for `bob meeting`
but not for `bob alice`. -/
theorem search_query_semantics (t : Task) (q : String) :
    task_matches_query t "" = true ∧
      (q ≠ "" → (task_matches_query t q = true ↔
        (containsSub (lowerChars q.toList) (searchBlob t) = true ∨
          (queryTokens q ≠ [] ∧
            ∀ tok ∈ queryTokens q, containsSub tok (searchBlob t) = true)))) ∧
      task_matches_query { description := some "Meeting with Bob" }
          "bob meeting" = true ∧
      task_matches_query { description := some "Meeting with Bob" }
          "bob alice" = false := by
  refine ⟨rfl, ?_, by decide, by decide⟩
  intro hq
  unfold task_matches_query
  rw [if_neg hq]
  by_cases h1 : containsSub (lowerChars q.toList) (searchBlob t) = true
  · simp [h1]
  · by_cases h2 : (queryTokens q).isEmpty
    · rw [List.isEmpty_iff] at h2
      simp [h1, h2]
    · rw [Bool.not_eq_true] at h1
      simp only [h1, Bool.false_eq_true, if_false]
      rw [List.isEmpty_iff] at h2
      simp [h1, h2, List.all_eq_true]

/-- Witness for the amended C8 on the claim's own example. -/
theorem search_query_semantics_witness :
    task_matches_query { description := some "Meeting with Bob" } "" = true ∧
      task_matches_query { description := some "Meeting with Bob" }
        "bob meeting" = true := by
  have h := search_query_semantics { description := some "Meeting with Bob" }
    "bob meeting"
  exact ⟨h.1, (h.2.1 (by decide)).mpr (Or.inr ⟨by decide, by decide⟩)⟩

/-! ### Claim C9 -/

/-- Claim C9: the example line yields exactly the claimed record (type Ask,
title, who_asked Lena, priority Medium, start today, empty deadline); every
parsed record's type and priority land in the enums, with unknown type
falling back to Make and invalid priority to Medium; an unparseable start
keeps today, an unparseable deadline stays empty; a line with no `Type:`
head parses to nothing and bulk import of it (or of a line whose title
would be empty) adds no task and counts nothing. -/
theorem template_line_parsing (today : String) :
    parse_template_line today "Ask: Confirm rules — asked by Lena"
        = some { title := some "Confirm rules", ttype := some "Ask",
                 priority := some "Medium", who_asked := some "Lena",
                 assignee := some "", start_date := some today,
                 deadline := some "", status := some "open",
                 focus := some false, description := some "" } ∧
      (∀ line t, parse_template_line today line = some t →
        ∃ ty, t.ttype = some ty ∧ ty ∈ TASK_TYPES) ∧
      (∀ line t, parse_template_line today line = some t →
        ∃ p, t.priority = some p ∧ p ∈ PRIORITIES) ∧
      (parse_template_line today "Zzz: Something").bind Task.ttype
          = some "Make" ∧
      (parse_template_line today "Make: T — priority urgent").bind Task.priority
          = some "Medium" ∧
      (parse_template_line today "Make: T — start 2025-13-45").bind
          Task.start_date = some today ∧
      (parse_template_line today "Make: T — deadline gibberish").bind
          Task.deadline = some "" ∧
      parse_template_line today "no colon marker here" = none ∧
      (∀ (s : Store) (now : String),
        bulk_import s today now ["no colon marker here"] = (s, 0)) ∧
      (∀ (s : Store) (now : String),
        bulk_import s today now ["Ask:  "] = (s, 0)) := by
  refine ⟨rfl, ?_, ?_, rfl, rfl, rfl, rfl, rfl, fun s now => rfl,
    fun s now => rfl⟩
  · intro line t h
    unfold parse_template_line at h
    rcases hm : matchHead line.toList with _ | ⟨w, rest⟩
    · rw [hm] at h; cases h
    · rw [hm] at h
      simp only [Option.some.injEq] at h
      subst h
      refine ⟨_, rfl, ?_⟩
      split
      · next hcond =>
        first
          | exact hcond
          | exact List.mem_of_elem_eq_true hcond
      · decide
  · intro line t h
    unfold parse_template_line at h
    rcases hm : matchHead line.toList with _ | ⟨w, rest⟩
    · rw [hm] at h; cases h
    · rw [hm] at h
      simp only [Option.some.injEq] at h
      subst h
      refine ⟨_, rfl, ?_⟩
      split
      · next hcond =>
        first
          | exact hcond
          | exact List.mem_of_elem_eq_true hcond
      · decide

/-- Witness for C9 at a concrete today. -/
theorem template_line_parsing_witness :
    parse_template_line "2025-10-07" "Ask: Confirm rules — asked by Lena"
        = some { title := some "Confirm rules", ttype := some "Ask",
                 priority := some "Medium", who_asked := some "Lena",
                 assignee := some "", start_date := some "2025-10-07",
                 deadline := some "", status := some "open",
                 focus := some false, description := some "" } ∧
      ("Ask" : String) ∈ TASK_TYPES := by
  have h := template_line_parsing "2025-10-07"
  refine ⟨h.1, ?_⟩
  obtain ⟨ty, hty, hmem⟩ := h.2.1 "Ask: Confirm rules — asked by Lena" _ h.1
  have hAsk : ("Ask" : String) = ty := Option.some.inj hty
  rw [hAsk]
  exact hmem

/-! ### Claim C2 -/

/-- Shape of every item the build phase emits: non-blank text, and an
uncompleted item has both completion fields null. -/
def builtOk (p : PlanItem) : Prop :=
  ¬ pyStrip p.text = "" ∧
    (p.completed = false → p.completed_at = none ∧ p.completed_by = none)

lemma mergeBuildStep_ok (now : String) (fresh : Nat → String)
    (prevPlan : List PlanItem) (acc : List PlanItem × Nat) (inc : IncomingItem)
    (hacc : ∀ p ∈ acc.1, builtOk p) :
    ∀ p ∈ (mergeBuildStep now fresh prevPlan acc inc).1, builtOk p := by
  intro p hp
  unfold mergeBuildStep at hp
  by_cases ht : pyStrip inc.text = ""
  · rw [if_pos ht] at hp; exact hacc p hp
  · rw [if_neg ht] at hp
    simp only [List.mem_append, List.mem_singleton] at hp
    rcases hp with hp | rfl
    · exact hacc p hp
    · unfold builtOk
      refine ⟨ht, ?_⟩
      intro hc
      simp only at hc
      simp [hc]

lemma mergeBuilt_ok (now : String) (fresh : Nat → String) (task : PlanTask)
    (incoming : List IncomingItem) :
    ∀ p ∈ mergeBuilt now fresh task incoming, builtOk p := by
  unfold mergeBuilt
  suffices h : ∀ (incs : List IncomingItem) (acc : List PlanItem × Nat),
      (∀ p ∈ acc.1, builtOk p) →
      ∀ p ∈ (incs.foldl (mergeBuildStep now fresh task.plan) acc).1, builtOk p by
    exact h incoming ([], 0) (by simp)
  intro incs
  induction incs with
  | nil => intro acc hacc; exact hacc
  | cons i is ih =>
    intro acc hacc
    exact ih _ (mergeBuildStep_ok now fresh task.plan acc i hacc)

lemma rederiveItem_id (ss : List PlanSession) (p : PlanItem) :
    (rederiveItem ss p).id = p.id := by
  unfold rederiveItem
  split
  · split <;> rfl
  · rfl

lemma rederiveItem_fields (ss : List PlanSession) (p : PlanItem) :
    (rederiveItem ss p).text = p.text ∧
      (rederiveItem ss p).completed = p.completed ∧
      (rederiveItem ss p).completed_at = p.completed_at ∧
      ((rederiveItem ss p).completed_by = p.completed_by ∨
        (rederiveItem ss p).completed_by = none) := by
  unfold rederiveItem
  split
  · split
    · exact ⟨rfl, rfl, rfl, Or.inl rfl⟩
    · exact ⟨rfl, rfl, rfl, Or.inr rfl⟩
  · exact ⟨rfl, rfl, rfl, Or.inl rfl⟩

lemma rederive_ownership (ss : List PlanSession) (l : List PlanItem) :
    ∀ p ∈ l.map (rederiveItem ss), ∀ sid, p.completed_by = some sid →
      ∃ s ∈ ss, s.id = sid ∧ p.id ∈ s.plan_items := by
  intro p hp sid hby
  obtain ⟨q, hq, rfl⟩ := List.mem_map.mp hp
  rw [rederiveItem_id]
  obtain ⟨qid, qtext, qcomp, qat, qby⟩ := q
  cases qby with
  | none =>
    have hred : rederiveItem ss ⟨qid, qtext, qcomp, qat, none⟩
        = ⟨qid, qtext, qcomp, qat, none⟩ := rfl
    rw [hred] at hby
    simp at hby
  | some sid0 =>
    by_cases hany :
        (ss.any fun s => s.id = sid0 && s.plan_items.contains qid) = true
    · have hred : rederiveItem ss ⟨qid, qtext, qcomp, qat, some sid0⟩
          = ⟨qid, qtext, qcomp, qat, some sid0⟩ := by
        unfold rederiveItem
        exact if_pos hany
      rw [hred] at hby
      obtain rfl := Option.some.inj hby
      obtain ⟨s, hs, hcond⟩ := List.any_eq_true.mp hany
      simp only [Bool.and_eq_true, decide_eq_true_eq] at hcond
      exact ⟨s, hs, hcond.1, List.mem_of_elem_eq_true hcond.2⟩
    · have hred : rederiveItem ss ⟨qid, qtext, qcomp, qat, some sid0⟩
          = ⟨qid, qtext, qcomp, qat, none⟩ := by
        unfold rederiveItem
        exact if_neg hany
      rw [hred] at hby
      simp at hby

lemma find_self_of_nodup (l : List PlanItem)
    (hnd : (l.map PlanItem.id).Nodup) :
    ∀ p ∈ l, l.find? (fun q => q.id = p.id) = some p := by
  induction l with
  | nil => intro p hp; simp at hp
  | cons a t ih =>
    intro p hp
    rw [List.map_cons, List.nodup_cons] at hnd
    rcases List.mem_cons.mp hp with rfl | hp
    · rw [List.find?_cons_of_pos _ (by simp)]
    · have hne : ¬ (a.id = p.id) := by
        intro he
        exact hnd.1 (by rw [he]; exact List.mem_map_of_mem PlanItem.id hp)
      rw [List.find?_cons_of_neg _ (by simp [hne])]
      exact ih hnd.2 p hp

lemma mergeBuildStep_fix (now2 : String) (fresh2 : Nat → String)
    (plan2 : List PlanItem) (p : PlanItem)
    (htext : ¬ pyStrip p.text = "")
    (hclean : p.completed = false → p.completed_at = none ∧ p.completed_by = none)
    (hfind : plan2.find? (fun q => q.id = p.id) = some p)
    (acc : List PlanItem × Nat) :
    mergeBuildStep now2 fresh2 plan2 acc (resubmit p) = (acc.1 ++ [p], acc.2) := by
  obtain ⟨pid, ptext, pcomp, pat, pby⟩ := p
  simp only at htext hclean hfind
  unfold mergeBuildStep resubmit
  simp only
  rw [if_neg htext]
  cases pcomp with
  | false =>
    obtain ⟨h1, h2⟩ := hclean rfl
    subst h1; subst h2
    simp
  | true =>
    by_cases hob : (pat = none ∧ pby = none)
    · obtain ⟨h1, h2⟩ := hob
      subst h1; subst h2
      simp [hfind]
    · simp [hfind, hob]

lemma mergeBuild_fold_fix (now2 : String) (fresh2 : Nat → String)
    (plan2 : List PlanItem) :
    ∀ (ps : List PlanItem) (acc : List PlanItem × Nat),
      (∀ p ∈ ps, ¬ pyStrip p.text = "" ∧
        (p.completed = false → p.completed_at = none ∧ p.completed_by = none) ∧
        plan2.find? (fun q => q.id = p.id) = some p) →
      (ps.map resubmit).foldl (mergeBuildStep now2 fresh2 plan2) acc
        = (acc.1 ++ ps, acc.2) := by
  intro ps
  induction ps with
  | nil => intro acc _; simp
  | cons p ps ih =>
    intro acc h
    have hp := h p (by simp)
    rw [List.map_cons, List.foldl_cons,
      mergeBuildStep_fix now2 fresh2 plan2 p hp.1 hp.2.1 hp.2.2 acc,
      ih _ (fun q hq => h q (by simp [hq]))]
    simp

lemma purgeSessions_idem (ids : List String) (ss : List PlanSession) :
    purgeSessions ids (purgeSessions ids ss) = purgeSessions ids ss := by
  unfold purgeSessions
  rw [List.map_map]
  apply List.map_congr_left
  intro s _
  simp [List.filter_filter]

lemma rederive_fix (ss : List PlanSession) (p : PlanItem)
    (h : ∀ sid, p.completed_by = some sid →
      ∃ s ∈ ss, s.id = sid ∧ p.id ∈ s.plan_items) :
    rederiveItem ss p = p := by
  obtain ⟨pid, ptext, pcomp, pat, pby⟩ := p
  cases pby with
  | none => rfl
  | some sid =>
    obtain ⟨s, hs, hsid, hmem⟩ := h sid rfl
    unfold rederiveItem
    exact if_pos (List.any_eq_true.mpr ⟨s, hs, by
      simp only [Bool.and_eq_true, decide_eq_true_eq]
      exact ⟨hsid, List.elem_eq_true_of_mem hmem⟩⟩)

lemma merge_plan_items_ownership (now : String) (fresh : Nat → String)
    (task : PlanTask) (incoming : List IncomingItem) :
    ownershipInv (merge_plan_items now fresh task incoming) :=
  fun p hp sid hby => rederive_ownership _ _ p hp sid hby

lemma merge_plan_items_idem (now now2 : String) (fresh fresh2 : Nat → String)
    (task : PlanTask) (incoming : List IncomingItem)
    (hnd : ((merge_plan_items now fresh task incoming).plan.map PlanItem.id).Nodup) :
    merge_plan_items now2 fresh2 (merge_plan_items now fresh task incoming)
        ((merge_plan_items now fresh task incoming).plan.map resubmit)
      = merge_plan_items now fresh task incoming := by
  set M := merge_plan_items now fresh task incoming with hM
  have hplan : M.plan
      = (mergeBuilt now fresh task incoming).map
          (rederiveItem (purgeSessions
            ((mergeBuilt now fresh task incoming).map PlanItem.id)
            task.sessions)) := rfl
  have hsess : M.sessions
      = purgeSessions ((mergeBuilt now fresh task incoming).map PlanItem.id)
          task.sessions := rfl
  have hPok : ∀ p ∈ M.plan, ¬ pyStrip p.text = "" ∧
      (p.completed = false → p.completed_at = none ∧ p.completed_by = none) := by
    intro p hp
    rw [hplan] at hp
    obtain ⟨q, hq, rfl⟩ := List.mem_map.mp hp
    have hqok := mergeBuilt_ok now fresh task incoming q hq
    have hf := rederiveItem_fields (purgeSessions
      ((mergeBuilt now fresh task incoming).map PlanItem.id) task.sessions) q
    refine ⟨?_, ?_⟩
    · rw [hf.1]; exact hqok.1
    · intro hc
      rw [hf.2.1] at hc
      have hcl := hqok.2 hc
      refine ⟨?_, ?_⟩
      · rw [hf.2.2.1, hcl.1]
      · rcases hf.2.2.2 with h | h
        · rw [h, hcl.2]
        · rw [h]
  have hfind : ∀ p ∈ M.plan, M.plan.find? (fun q => q.id = p.id) = some p :=
    find_self_of_nodup M.plan hnd
  have hown : ownershipInv M := merge_plan_items_ownership now fresh task incoming
  have hB2 : mergeBuilt now2 fresh2 M (M.plan.map resubmit) = M.plan := by
    unfold mergeBuilt
    rw [mergeBuild_fold_fix now2 fresh2 M.plan M.plan ([], 0)
      (fun p hp => ⟨(hPok p hp).1, (hPok p hp).2, hfind p hp⟩)]
    simp
  have hF2 : M.plan.map PlanItem.id
      = (mergeBuilt now fresh task incoming).map PlanItem.id := by
    rw [hplan, List.map_map]
    exact List.map_congr_left fun q _ => rederiveItem_id _ q
  have hS2 : purgeSessions (M.plan.map PlanItem.id) M.sessions = M.sessions := by
    rw [hF2, hsess]
    exact purgeSessions_idem _ _
  have hplanfix : M.plan.map (rederiveItem M.sessions) = M.plan := by
    conv_rhs => rw [← List.map_id M.plan]
    exact List.map_congr_left fun p hp => rederive_fix M.sessions p (hown p hp)
  show (⟨(mergeBuilt now2 fresh2 M (M.plan.map resubmit)).map
      (rederiveItem (purgeSessions
        ((mergeBuilt now2 fresh2 M (M.plan.map resubmit)).map PlanItem.id)
        M.sessions)),
    purgeSessions
      ((mergeBuilt now2 fresh2 M (M.plan.map resubmit)).map PlanItem.id)
      M.sessions⟩ : PlanTask) = M
  rw [hB2, hS2, hplanfix]

/-- Claim C2 (spec-modelled, since the source carries no plan/session
machinery): after `merge_plan_items` every attributed PlanItem's session
exists in the task and still lists the item, and re-running the merge on its
own output (the items resubmitted unchanged) is a no-op, provided the final
item ids are pairwise distinct — the spec declares PlanItem ids unique. -/
theorem merge_plan_items_consistent (now now2 : String)
    (fresh fresh2 : Nat → String) (task : PlanTask)
    (incoming : List IncomingItem) :
    ownershipInv (merge_plan_items now fresh task incoming) ∧
      (((merge_plan_items now fresh task incoming).plan.map PlanItem.id).Nodup →
        merge_plan_items now2 fresh2 (merge_plan_items now fresh task incoming)
            ((merge_plan_items now fresh task incoming).plan.map resubmit)
          = merge_plan_items now fresh task incoming) :=
  ⟨merge_plan_items_ownership now fresh task incoming,
    merge_plan_items_idem now now2 fresh fresh2 task incoming⟩

/-- A concrete plan/session state for the C2 witness. -/
def planTaskW : PlanTask :=
  ⟨[⟨"p1", "alpha", true, some "t0", some "s1"⟩],
    [⟨"s1", ["p1", "gone"]⟩]⟩

/-- Concrete incoming items for the C2 witness: one existing completed item
resubmitted with omitted completion fields, one new unfinished item. -/
def incomingW : List IncomingItem :=
  [⟨some "p1", "alpha", true, none, none⟩, ⟨none, "beta", false, none, none⟩]

/-- A concrete id mint for the C2 witness. -/
def freshW : Nat → String := fun n => "m" ++ toString n

/-- Witness for C2 at the concrete state above. -/
theorem merge_plan_items_consistent_witness :
    ownershipInv (merge_plan_items "N" freshW planTaskW incomingW) ∧
      merge_plan_items "N2" freshW (merge_plan_items "N" freshW planTaskW incomingW)
          ((merge_plan_items "N" freshW planTaskW incomingW).plan.map resubmit)
        = merge_plan_items "N" freshW planTaskW incomingW := by
  have h := merge_plan_items_consistent "N" "N2" freshW freshW planTaskW incomingW
  exact ⟨h.1, h.2 (by decide)⟩

end TaskFocus
